import Mathlib

/-!
Verification of the talos real-time telemetry cache and differential
streaming subsystem.

The definitions below are a shallow embedding of:
  * `src/system_manager/plugins/ros2_topic_subscriber.py`
    (class `ROS2TopicSubscriber`: cache, staleness eviction, start,
    status pass, janitor sweep, message callback);
  * `src/talos/routers/websocket.py`
    (`_poll_and_send_single_topic_data`, `websocket_service_logs`);
  * `src/talos/agent/routers/logs.py` (`get_service_logs`, cursor branch);
  * `src/talos/routers/ros2.py` (`get_ros2_topic_data`).

Time is modelled by rationals; `time.time()` becomes an explicit `now`
parameter.  Python dicts become association lists keyed by `String`
(unique keys are maintained by the operations used).  Raw message values
are an opaque type parameter `V`.
-/

/-- A `msg_cache` entry: the dict `{"raw_message": msg, "received_at": t}`.
Both fields are optional because the code reads them with `.get` and
handles their absence (backward-compatibility branches). -/
structure CacheEntry (V : Type) where
  rawMessage : Option V
  receivedAt : Option ℚ
deriving DecidableEq, Repr

/-- State of one `ROS2TopicSubscriber` instance: dynamic topic map
`topics`, static topic map `static_topics` (topic name → message type),
the set of live subscriber topic names, the message cache and the
running flag. -/
structure ROS2TopicSubscriber (V : Type) where
  topics : List (String × String)
  static_topics : List (String × String)
  subscribers : List String
  msg_cache : List (String × CacheEntry V)
  is_running : Bool
deriving DecidableEq, Repr

/-- The constant `DYNAMIC_TOPIC_STALE_TIME = 3.0` seconds. -/
def DYNAMIC_TOPIC_STALE_TIME : ℚ := 3

/-- Python `dict.get(k)` on an association list: the value of the first
pair whose key is `k`. -/
def alookup {A : Type} (l : List (String × A)) (k : String) : Option A :=
  match l with
  | [] => none
  | (k', v) :: rest => if k' = k then some v else alookup rest k

/-- Keys of the dynamic topic dict. -/
def dynKeys {V : Type} (p : ROS2TopicSubscriber V) : List String :=
  p.topics.map Prod.fst

/-- Keys of the static topic dict. -/
def staticKeys {V : Type} (p : ROS2TopicSubscriber V) : List String :=
  p.static_topics.map Prod.fst

/-- Python `del self.msg_cache[topic]` : remove the entry for `topic`. -/
def cacheErase {V : Type} : List (String × CacheEntry V) → String →
    List (String × CacheEntry V)
  | [], _ => []
  | kv :: rest, t => if kv.1 = t then cacheErase rest t else kv :: cacheErase rest t

/-- Python dict assignment `d[k] = v`: replace in place when the key is
present, append otherwise. -/
def upsert {A : Type} : List (String × A) → String → A → List (String × A)
  | [], k, v => [(k, v)]
  | kv :: rest, k, v =>
    if kv.1 = k then (k, v) :: rest else kv :: upsert rest k v

/-- Method `ROS2TopicSubscriber.get_topic_data` (ros2_topic_subscriber.py 196-239).
Returns the (raw value, received_at) pair and the plugin state after the
call (a read of a stale dynamic entry deletes it). -/
def get_topic_data {V : Type} (p : ROS2TopicSubscriber V) (topic : String)
    (now : ℚ) : Option (V × Option ℚ) × ROS2TopicSubscriber V :=
  match alookup p.msg_cache topic with
  | none => (none, p)
  | some cached =>
    let isDyn : Bool := (alookup p.topics topic).isSome
    let stale : Bool :=
      isDyn && (match cached.receivedAt with
        | some r => decide (now - r > DYNAMIC_TOPIC_STALE_TIME)
        | none => false)
    if stale then
      (none, { p with msg_cache := cacheErase p.msg_cache topic })
    else
      match cached.rawMessage with
      | some m => (some (m, cached.receivedAt), p)
      | none => (none, p)

/-- Method `ROS2TopicSubscriber.is_topic_available` (ros2_topic_subscriber.py
250-285). -/
def is_topic_available {V : Type} (p : ROS2TopicSubscriber V)
    (topic : String) (now : ℚ) : Bool × ROS2TopicSubscriber V :=
  if ¬ (topic ∈ dynKeys p ∨ topic ∈ staticKeys p) then (false, p)
  else
    match alookup p.msg_cache topic with
    | none => (false, p)
    | some cached =>
      let isDyn : Bool := (alookup p.topics topic).isSome
      let stale : Bool :=
        isDyn && (match cached.receivedAt with
          | some r => decide (now - r > DYNAMIC_TOPIC_STALE_TIME)
          | none => false)
      if stale then (false, { p with msg_cache := cacheErase p.msg_cache topic })
      else (true, p)

/-- Method `ROS2TopicSubscriber.list_topics` (ros2_topic_subscriber.py 241-248). -/
def list_topics {V : Type} (p : ROS2TopicSubscriber V) : List String :=
  dynKeys p ++ staticKeys p

/-- The `msg_callback` put path (ros2_topic_subscriber.py 475-496):
`self.msg_cache[topic] = {"raw_message": msg, "received_at": now}` with
no validation against the configured topic maps. -/
def msg_callback {V : Type} (p : ROS2TopicSubscriber V) (topic : String)
    (msg : V) (now : ℚ) : ROS2TopicSubscriber V :=
  { p with msg_cache := upsert p.msg_cache topic ⟨some msg, some now⟩ }

/-- One record of `get_all_topics_status`'s result dict. -/
structure StatusRecord where
  configured : Bool
  available : Bool
  msg_type : String
  subscribed : Bool
  receivedAt : Option ℚ
  secondsSinceLastMessage : Option ℚ
deriving DecidableEq, Repr

/-- The dynamic-topic branch of the status pass
(ros2_topic_subscriber.py 327-356): builds the topic's record and
possibly deletes a stale entry from the cache. -/
def statusDynOne {V : Type} (cache : List (String × CacheEntry V))
    (subs : List String) (topic msgType : String) (now : ℚ) :
    StatusRecord × List (String × CacheEntry V) :=
  let subscribed : Bool := topic ∈ subs
  match alookup cache topic with
  | none =>
    (⟨true, false, msgType, subscribed, none, none⟩, cache)
  | some cached =>
    match cached.receivedAt with
    | some r =>
      if r > 0 then
        if now - r ≤ DYNAMIC_TOPIC_STALE_TIME then
          (⟨true, true, msgType, subscribed, some r, some (now - r)⟩, cache)
        else
          (⟨true, false, msgType, subscribed, some r, none⟩,
            cacheErase cache topic)
      else
        (⟨true, true, msgType, subscribed, some r, none⟩, cache)
    | none =>
      (⟨true, true, msgType, subscribed, none, none⟩, cache)

/-- The static-topic branch of the status pass
(ros2_topic_subscriber.py 359-382): never deletes from the cache. -/
def statusStaticOne {V : Type} (cache : List (String × CacheEntry V))
    (subs : List String) (topic msgType : String) (now : ℚ) : StatusRecord :=
  let subscribed : Bool := topic ∈ subs
  match alookup cache topic with
  | none => ⟨true, false, msgType, subscribed, none, none⟩
  | some cached =>
    match cached.receivedAt with
    | some r =>
      if r > 0 then ⟨true, true, msgType, subscribed, some r, some (now - r)⟩
      else ⟨true, true, msgType, subscribed, some r, none⟩
    | none => ⟨true, true, msgType, subscribed, none, none⟩

/-- Fold of the dynamic loop of `get_all_topics_status` over the dynamic
topic list, threading the status dict and the cache. -/
def statusDynFold {V : Type} (subs : List String) (now : ℚ) :
    List (String × String) → List (String × StatusRecord) →
    List (String × CacheEntry V) →
    List (String × StatusRecord) × List (String × CacheEntry V)
  | [], acc, cache => (acc, cache)
  | (topic, mt) :: rest, acc, cache =>
    let (rec1, cache1) := statusDynOne cache subs topic mt now
    statusDynFold subs now rest (upsert acc topic rec1) cache1

/-- Fold of the static loop of `get_all_topics_status`. -/
def statusStaticFold {V : Type} (subs : List String) (now : ℚ)
    (cache : List (String × CacheEntry V)) :
    List (String × String) → List (String × StatusRecord) →
    List (String × StatusRecord)
  | [], acc => acc
  | (topic, mt) :: rest, acc =>
    statusStaticFold subs now cache rest
      (upsert acc topic (statusStaticOne cache subs topic mt now))

/-- Method `ROS2TopicSubscriber.get_all_topics_status`
(ros2_topic_subscriber.py 310-383): one pass over the dynamic then the
static topics, returning the status dict and the plugin state after the
pass (the dynamic loop evicts stale entries). -/
def get_all_topics_status {V : Type} (p : ROS2TopicSubscriber V)
    (now : ℚ) : List (String × StatusRecord) × ROS2TopicSubscriber V :=
  let (acc1, cache1) := statusDynFold p.subscribers now p.topics [] p.msg_cache
  let acc2 := statusStaticFold p.subscribers now cache1 p.static_topics acc1
  (acc2, { p with msg_cache := cache1 })

/-- Whether `_periodic_status_check` deletes a cache entry on a sweep at
time `now`: the key is a dynamic topic and the entry has a present
timestamp whose age exceeds the threshold. -/
def janitorEvicts {V : Type} (topics : List (String × String)) (now : ℚ)
    (kv : String × CacheEntry V) : Bool :=
  (alookup topics kv.1).isSome &&
    (match kv.2.receivedAt with
     | some r => decide (now - r > DYNAMIC_TOPIC_STALE_TIME)
     | none => false)

/-- The cache left by one stale-clearing sweep of
`_periodic_status_check`. -/
def janitorFilter {V : Type} (topics : List (String × String)) (now : ℚ) :
    List (String × CacheEntry V) → List (String × CacheEntry V)
  | [] => []
  | kv :: rest =>
    if janitorEvicts topics now kv then janitorFilter topics now rest
    else kv :: janitorFilter topics now rest

/-- One sweep of `_periodic_status_check`'s stale-clearing loop
(ros2_topic_subscriber.py 568-585): delete every cached dynamic entry
with a present timestamp whose age exceeds the threshold. -/
def janitorSweep {V : Type} (p : ROS2TopicSubscriber V) (now : ℚ) :
    ROS2TopicSubscriber V :=
  { p with msg_cache := janitorFilter p.topics now p.msg_cache }

/-- Method `ROS2TopicSubscriber.start` (ros2_topic_subscriber.py 84-159).
`create t = true` models `ROS2Subscriber(...)` succeeding for topic `t`,
`false` models it raising.  Creation is attempted for every dynamic
topic then every static topic; after the pass a `RuntimeError` is raised
exactly when the subscriber dict is empty while at least one topic is
configured. -/
def start {V : Type} (p : ROS2TopicSubscriber V) (create : String → Bool) :
    Except Unit (ROS2TopicSubscriber V) :=
  if p.is_running then .ok p
  else
    let newSubs := p.subscribers ++ (dynKeys p).filter create ++
      (staticKeys p).filter create
    let totalTopics := p.topics.length + p.static_topics.length
    if newSubs = [] ∧ totalTopics > 0 then .error ()
    else .ok { p with subscribers := newSubs, is_running := true }

/-- Outcomes of the HTTP topic-data endpoint. -/
inductive RouteResult (V : Type) where
  | notFound
  | keyError
  | ok (data : Option V) (available : Bool) (msgType : String)
deriving DecidableEq, Repr

/-- Route handler `get_ros2_topic_data` (ros2.py 59-100), from the point where the
plugin is known: validate the topic against `list_topics`, read the
cache, then build the response with `plugin.topics[topic]` — a dict
index into the dynamic map only, which raises `KeyError` when the key is
absent. -/
def get_ros2_topic_data_route {V : Type} (p : ROS2TopicSubscriber V)
    (topic : String) (now : ℚ) : RouteResult V :=
  if topic ∈ list_topics p then
    let (cached, p1) := get_topic_data p topic now
    let (avail, _) := is_topic_available p1 topic now
    match alookup p1.topics topic with
    | none => .keyError
    | some mt => .ok (cached.map Prod.fst) avail mt
  else .notFound

/-- The constant `ROS2_TOPIC_MAX_SEND_RATE = 10.0` Hz (websocket.py 30). -/
def ROS2_TOPIC_MAX_SEND_RATE : ℚ := 10

/-- The throttle `min_interval = 1.0 / ROS2_TOPIC_MAX_SEND_RATE` (websocket.py 492). -/
def minSendInterval : ℚ := 1 / ROS2_TOPIC_MAX_SEND_RATE

/-- What one tick of the topic-poll loop observes: the wall-clock time
and the results of `plugin.get_topic_data` / `plugin.is_topic_available`
at that tick. -/
structure PollTick (V : Type) where
  now : ℚ
  cached : Option (V × Option ℚ)
  available : Bool

/-- Function `_poll_and_send_single_topic_data` (websocket.py 154-243) as a pure
step: given the observed tick and the session's throttling state
(`last_send_time`, `last_sent_data_hash`), return whether a message is
sent and the new state.  `hashF` models Python's `hash(str(data))`;
`-1` is the in-band sentinel for "unavailable was last sent". -/
def pollStep {V : Type} (hashF : V → ℤ) (lastSendTime : ℚ)
    (lastHash : Option ℤ) (tick : PollTick V) : Bool × ℚ × Option ℤ :=
  if tick.now - lastSendTime < minSendInterval then
    (false, lastSendTime, lastHash)
  else
    match tick.cached with
    | some (v, _) =>
      let dh : Option ℤ := some (hashF v)
      if dh ≠ lastHash ∨ tick.available = false then (true, tick.now, dh)
      else (false, lastSendTime, lastHash)
    | none =>
      if tick.available = false then
        match lastHash with
        | none => (true, tick.now, some (-1))
        | some h =>
          if h ≠ -1 then (true, tick.now, some (-1))
          else (false, lastSendTime, lastHash)
      else (false, lastSendTime, lastHash)

/-- Run the poll loop over a list of observed ticks, collecting the
times of the messages it sends. -/
def runPoll {V : Type} (hashF : V → ℤ) (lastSendTime : ℚ)
    (lastHash : Option ℤ) : List (PollTick V) → (ℚ × Option ℤ) × List ℚ
  | [] => ((lastSendTime, lastHash), [])
  | tick :: rest =>
    let (sent, t2, h2) := pollStep hashF lastSendTime lastHash tick
    let (stf, sends) := runPoll hashF t2 h2 rest
    (stf, (if sent then [tick.now] else []) ++ sends)

/-- Separation by `d` of a list of times from a base time `L`: each element
is at least `d` after the previous one (and the first at least `d` after
`L`). -/
def sepFrom (d : ℚ) : ℚ → List ℚ → Prop
  | _, [] => True
  | L, t :: r => d ≤ t - L ∧ sepFrom d t r

/-- The cursor branch of the agent's `get_service_logs`
(logs.py 59-89): clamp the cursor to the file size, read from the
clamped offset to the end, and return the read bytes together with the
position after the read (which is the file size). -/
def agent_get_service_logs (file : List ℕ) (cursor : ℕ) : List ℕ × ℕ :=
  let size := file.length
  let c := if cursor > size then size else cursor
  (file.drop c, size)

/-- One iteration of the `websocket_service_logs` poll loop
(websocket.py 373-394), cursor branch: fetch from the agent; when the
fetched bytes are non-empty and the service or its log service is
reported up, send them and adopt the new cursor; otherwise send nothing
and still adopt the new cursor. -/
def stepLogPoll (cursor : ℕ) (file : List ℕ) (up : Bool) : ℕ × List ℕ :=
  let (logs, newCursor) := agent_get_service_logs file cursor
  if logs ≠ [] ∧ up = true then (newCursor, logs) else (newCursor, [])

/-- Run the log poll loop over a list of (file contents at the fetch,
service-up flag) observations, concatenating all bytes sent. -/
def runLogPoll (cursor : ℕ) : List (List ℕ × Bool) → ℕ × List ℕ
  | [] => (cursor, [])
  | (f, u) :: rest =>
    let (c2, sent) := stepLogPoll cursor f u
    let (cf, later) := runLogPoll c2 rest
    (cf, sent ++ later)

/-- The file contents at the last fetch of a trace (the starting
contents when the trace is empty). -/
def lastFile (f0 : List ℕ) (evs : List (List ℕ × Bool)) : List ℕ :=
  (evs.map Prod.fst).getLastD f0

/-- The byte ranges `[cursor, fileSize)` of the chunks the log poll loop
sends along a trace, in order: one range per iteration whose fetched
chunk is non-empty and is actually sent. -/
def sentSlices (cursor : ℕ) : List (List ℕ × Bool) → List (ℕ × ℕ)
  | [] => []
  | (f, u) :: rest =>
    let (c2, sent) := stepLogPoll cursor f u
    (if sent = [] then [] else [(cursor, f.length)]) ++ sentSlices c2 rest

/-- A list of byte ranges starting at or after `c`, each well-formed and
starting at or after the end of the previous one: the ranges are
pairwise disjoint, so no byte position belongs to two of them. -/
def slicesAscending : ℕ → List (ℕ × ℕ) → Prop
  | _, [] => True
  | c, ab :: rest => c ≤ ab.1 ∧ ab.1 ≤ ab.2 ∧ slicesAscending ab.2 rest

/-- The bytes of `L` covered by a list of ranges, concatenated in
order: range `(a, b)` contributes the slice of `L` from position `a`
up to position `b`. -/
def slicesBytes (L : List ℕ) : List (ℕ × ℕ) → List ℕ
  | [] => []
  | ab :: rest => (L.take ab.2).drop ab.1 ++ slicesBytes L rest

/-- Fixture: a plugin with one dynamic topic `/a` whose cache entry was
received at `t = 0`. -/
def pDynFix : ROS2TopicSubscriber ℕ :=
  ⟨[("/a", "T")], [], ["/a"], [("/a", ⟨some 7, some 0⟩)], true⟩

/-- Fixture: a plugin with one static topic `/b` whose cache entry was
received at `t = 0`. -/
def pStaticFix : ROS2TopicSubscriber ℕ :=
  ⟨[], [("/b", "S")], ["/b"], [("/b", ⟨some 9, some 0⟩)], true⟩

/-- Fixture: a stopped plugin configured with the three dynamic topics
`x`, `y`, `z` and nothing subscribed yet. -/
def pStartFix : ROS2TopicSubscriber ℕ :=
  ⟨[("x", "T"), ("y", "T"), ("z", "T")], [], [], [], false⟩

/-- Fixture: subscription creation that fails for topic `y` only. -/
def createNotY : String → Bool := fun t => !(t == "y")

/-- Fixture: a running plugin with one dynamic and one static topic and
an empty cache. -/
def pConfFix : ROS2TopicSubscriber ℕ :=
  ⟨[("/a", "T")], [("/b", "S")], ["/a", "/b"], [], true⟩

/-- Fixture log-poll trace: one byte appended, fetched while both
services are reported down, then fetched again with a service up. -/
def evsLogFix : List (List ℕ × Bool) := [([7], false), ([7], true)]

/-- Fixture: a plugin with one dynamic topic `/a` whose cache entry has
a positive timestamp `receivedAt = 1`. -/
def pDynPosFix : ROS2TopicSubscriber ℕ :=
  ⟨[("/a", "T")], [], ["/a"], [("/a", ⟨some 7, some 1⟩)], true⟩





/-! ### Association-list lemmas -/

theorem alookup_cacheErase_self {V : Type} (c : List (String × CacheEntry V))
    (t : String) : alookup (cacheErase c t) t = none := by
  induction c with
  | nil => rfl
  | cons kv rest ih =>
    by_cases hk : kv.1 = t
    · simpa [cacheErase, hk] using ih
    · simpa [cacheErase, alookup, hk] using ih

theorem alookup_cacheErase_ne {V : Type} (c : List (String × CacheEntry V))
    (t k : String) (hk : k ≠ t) :
    alookup (cacheErase c t) k = alookup c k := by
  induction c with
  | nil => rfl
  | cons kv rest ih =>
    by_cases h1 : kv.1 = t
    · have h2 : kv.1 ≠ k := fun h => hk (h ▸ h1)
      rw [show cacheErase (kv :: rest) t = cacheErase rest t by
        simp [cacheErase, h1]]
      rw [ih, alookup, if_neg h2]
    · rw [show cacheErase (kv :: rest) t = kv :: cacheErase rest t by
        simp [cacheErase, h1]]
      by_cases h2 : kv.1 = k
      · simp [alookup, h2]
      · simp only [alookup, if_neg h2]
        exact ih

theorem alookup_upsert_self {A : Type} (l : List (String × A)) (k : String)
    (v : A) : alookup (upsert l k v) k = some v := by
  induction l with
  | nil => simp [upsert, alookup]
  | cons kv rest ih =>
    by_cases h1 : kv.1 = k
    · simp [upsert, h1, alookup]
    · simp only [upsert, if_neg h1, alookup, ih]

theorem alookup_upsert_ne {A : Type} (l : List (String × A)) (k k' : String)
    (v : A) (hk : k' ≠ k) : alookup (upsert l k v) k' = alookup l k' := by
  induction l with
  | nil => simp [upsert, alookup, Ne.symm hk]
  | cons kv rest ih =>
    by_cases h1 : kv.1 = k
    · have h2 : k ≠ k' := Ne.symm hk
      simp [upsert, h1, alookup, h2]
    · simp only [upsert, if_neg h1, alookup]
      by_cases h2 : kv.1 = k'
      · rw [if_pos h2, if_pos h2]
      · rw [if_neg h2, if_neg h2]
        exact ih

theorem alookup_eq_none_of_not_mem {A : Type} (l : List (String × A))
    (k : String) (h : k ∉ l.map Prod.fst) : alookup l k = none := by
  induction l with
  | nil => rfl
  | cons kv rest ih =>
    simp only [List.map_cons, List.mem_cons, not_or] at h
    simpa [alookup, Ne.symm h.1] using ih h.2

theorem alookup_isSome_of_mem {A : Type} (l : List (String × A))
    (k : String) (h : k ∈ l.map Prod.fst) : (alookup l k).isSome = true := by
  induction l with
  | nil => simp at h
  | cons kv rest ih =>
    by_cases h1 : kv.1 = k
    · simp [alookup, h1]
    · simp only [List.map_cons, List.mem_cons] at h
      rcases h with h | h
      · exact absurd h.symm h1
      · simpa [alookup, h1] using ih h

theorem alookup_janitorFilter_keep {V : Type}
    (topics : List (String × String)) (now : ℚ)
    (l : List (String × CacheEntry V)) (t : String)
    (hp : ∀ x : CacheEntry V, janitorEvicts topics now (t, x) = false) :
    alookup (janitorFilter topics now l) t = alookup l t := by
  induction l with
  | nil => rfl
  | cons kv rest ih =>
    by_cases h1 : kv.1 = t
    · have hkeep : janitorEvicts topics now kv = false := by
        have := hp kv.2
        rwa [show (t, kv.2) = kv by rw [← h1]] at this
      simp [janitorFilter, hkeep, alookup, h1]
    · by_cases h2 : janitorEvicts topics now kv
      · simpa [janitorFilter, h2, alookup, h1] using ih
      · simp only [janitorFilter, h2, Bool.false_eq_true, if_false]
        simpa [alookup, h1] using ih

/-! ### Status-pass lemmas -/

theorem statusDynOne_cache_ne {V : Type} (cache : List (String × CacheEntry V))
    (subs : List String) (topic mt : String) (now : ℚ) (k : String)
    (hk : k ≠ topic) :
    alookup (statusDynOne cache subs topic mt now).2 k = alookup cache k := by
  unfold statusDynOne
  rcases hsc : alookup cache topic with _ | e
  · simp [hsc]
  · rcases hr : e.receivedAt with _ | r
    · simp [hsc, hr]
    · simp only [hsc, hr]
      split_ifs with hpos hfresh
      · simp
      · simpa using alookup_cacheErase_ne cache topic k hk
      · simp

theorem statusDynOne_congr {V : Type}
    (c c' : List (String × CacheEntry V)) (subs : List String)
    (topic mt : String) (now : ℚ)
    (h : alookup c topic = alookup c' topic) :
    (statusDynOne c subs topic mt now).1 = (statusDynOne c' subs topic mt now).1 ∧
    alookup (statusDynOne c subs topic mt now).2 topic =
      alookup (statusDynOne c' subs topic mt now).2 topic := by
  unfold statusDynOne
  rcases hsc : alookup c' topic with _ | e
  · rw [h, hsc]
    simp [hsc, h]
  · rw [h, hsc]
    rcases hr : e.receivedAt with _ | r
    · simp [hsc, h, hr]
    · simp only [hsc, hr]
      split_ifs with hpos hfresh
      · simp [h]
      · simp [alookup_cacheErase_self]
      · simp [h]

theorem statusDynOne_cache_self {V : Type}
    (c : List (String × CacheEntry V)) (subs : List String)
    (topic mt : String) (now : ℚ) (e : CacheEntry V) (r : ℚ)
    (hc : alookup c topic = some e) (hr : e.receivedAt = some r) :
    alookup (statusDynOne c subs topic mt now).2 topic =
      if 0 < r ∧ DYNAMIC_TOPIC_STALE_TIME < now - r then none else some e := by
  unfold statusDynOne
  simp only [hc, hr]
  by_cases hpos : r > 0
  · by_cases hfresh : now - r ≤ DYNAMIC_TOPIC_STALE_TIME
    · rw [if_pos hpos, if_pos hfresh,
        if_neg (by rintro ⟨h0, hgt⟩; linarith)]
      simpa using hc
    · rw [if_pos hpos, if_neg hfresh, if_pos ⟨hpos, by linarith⟩]
      simpa using alookup_cacheErase_self c topic
  · rw [if_neg hpos, if_neg (by rintro ⟨h0, hgt⟩; exact hpos h0)]
    simpa using hc

theorem statusDynOne_fst {V : Type}
    (c : List (String × CacheEntry V)) (subs : List String)
    (topic mt : String) (now : ℚ) (e : CacheEntry V) (r : ℚ)
    (hc : alookup c topic = some e) (hr : e.receivedAt = some r)
    (hrpos : 0 < r) :
    ((statusDynOne c subs topic mt now).1).available =
      decide (now - r ≤ DYNAMIC_TOPIC_STALE_TIME) := by
  unfold statusDynOne
  simp only [hc, hr]
  rw [if_pos hrpos]
  by_cases hfresh : now - r ≤ DYNAMIC_TOPIC_STALE_TIME
  · rw [if_pos hfresh]
    simp [hfresh]
  · rw [if_neg hfresh]
    simp [hfresh]

theorem statusDynFold_acc_ne {V : Type} (subs : List String) (now : ℚ)
    (ts : List (String × String)) :
    ∀ (acc : List (String × StatusRecord))
      (cache : List (String × CacheEntry V)) (topic : String),
      topic ∉ ts.map Prod.fst →
      alookup (statusDynFold subs now ts acc cache).1 topic =
        alookup acc topic := by
  induction ts with
  | nil => intro acc cache topic _; rfl
  | cons kv rest ih =>
    intro acc cache topic hmem
    obtain ⟨kvk, kvmt⟩ := kv
    simp only [List.map_cons, List.mem_cons, not_or] at hmem
    simp only [statusDynFold]
    rw [ih _ _ _ hmem.2, alookup_upsert_ne _ _ _ _ hmem.1]

theorem statusDynFold_cache_ne {V : Type} (subs : List String) (now : ℚ)
    (ts : List (String × String)) :
    ∀ (acc : List (String × StatusRecord))
      (cache : List (String × CacheEntry V)) (topic : String),
      topic ∉ ts.map Prod.fst →
      alookup (statusDynFold subs now ts acc cache).2 topic =
        alookup cache topic := by
  induction ts with
  | nil => intro acc cache topic _; rfl
  | cons kv rest ih =>
    intro acc cache topic hmem
    obtain ⟨kvk, kvmt⟩ := kv
    simp only [List.map_cons, List.mem_cons, not_or] at hmem
    simp only [statusDynFold]
    rw [ih _ _ _ hmem.2, statusDynOne_cache_ne _ _ _ _ _ _ hmem.1]

theorem statusDynFold_main {V : Type} (subs : List String) (now : ℚ)
    (ts : List (String × String)) :
    ∀ (acc : List (String × StatusRecord))
      (cache : List (String × CacheEntry V)) (topic mt : String),
      (ts.map Prod.fst).Nodup → alookup ts topic = some mt →
      alookup (statusDynFold subs now ts acc cache).1 topic =
        some (statusDynOne cache subs topic mt now).1 ∧
      alookup (statusDynFold subs now ts acc cache).2 topic =
        alookup (statusDynOne cache subs topic mt now).2 topic := by
  induction ts with
  | nil => intro acc cache topic mt _ hl; cases hl
  | cons kv rest ih =>
    intro acc cache topic mt hnd hl
    obtain ⟨kvk, kvmt⟩ := kv
    simp only [List.map_cons, List.nodup_cons] at hnd
    by_cases hkt : kvk = topic
    · subst hkt
      rw [show alookup ((kvk, kvmt) :: rest) kvk = some kvmt by
        simp [alookup]] at hl
      injection hl with hl
      subst hl
      simp only [statusDynFold]
      constructor
      · rw [statusDynFold_acc_ne subs now rest _ _ _ hnd.1,
          alookup_upsert_self]
      · rw [statusDynFold_cache_ne subs now rest _ _ _ hnd.1]
    · rw [show alookup ((kvk, kvmt) :: rest) topic = alookup rest topic by
        simp [alookup, hkt]] at hl
      simp only [statusDynFold]
      have hpre : alookup (statusDynOne cache subs kvk kvmt now).2 topic =
          alookup cache topic :=
        statusDynOne_cache_ne _ _ _ _ _ _ (Ne.symm hkt)
      obtain ⟨ih1, ih2⟩ := ih (upsert acc kvk
        (statusDynOne cache subs kvk kvmt now).1)
        (statusDynOne cache subs kvk kvmt now).2 topic mt hnd.2 hl
      obtain ⟨hcongr1, hcongr2⟩ := statusDynOne_congr
        (statusDynOne cache subs kvk kvmt now).2 cache subs topic mt now hpre
      exact ⟨by rw [ih1, hcongr1], by rw [ih2, hcongr2]⟩

theorem statusStaticFold_acc_ne {V : Type} (subs : List String) (now : ℚ)
    (cache : List (String × CacheEntry V)) (ts : List (String × String)) :
    ∀ (acc : List (String × StatusRecord)) (topic : String),
      topic ∉ ts.map Prod.fst →
      alookup (statusStaticFold subs now cache ts acc) topic =
        alookup acc topic := by
  induction ts with
  | nil => intro acc topic _; rfl
  | cons kv rest ih =>
    intro acc topic hmem
    obtain ⟨kvk, kvmt⟩ := kv
    simp only [List.map_cons, List.mem_cons, not_or] at hmem
    simp only [statusStaticFold]
    rw [ih _ _ hmem.2, alookup_upsert_ne _ _ _ _ hmem.1]

/-! ### Poll-throttle lemmas -/

theorem pollStep_throttled {V : Type} (hashF : V → ℤ) (lastT : ℚ)
    (lastH : Option ℤ) (tick : PollTick V)
    (h : tick.now - lastT < minSendInterval) :
    pollStep hashF lastT lastH tick = (false, lastT, lastH) := by
  unfold pollStep
  rw [if_pos h]

theorem pollStep_sent {V : Type} (hashF : V → ℤ) (lastT : ℚ)
    (lastH : Option ℤ) (tick : PollTick V) (t2 : ℚ) (h2 : Option ℤ)
    (h : pollStep hashF lastT lastH tick = (true, t2, h2)) :
    t2 = tick.now ∧ minSendInterval ≤ tick.now - lastT := by
  obtain ⟨tnow, tcached, tavail⟩ := tick
  simp only [pollStep] at h
  split at h
  · simp at h
  next hth =>
    have hint : minSendInterval ≤ tnow - lastT := le_of_not_lt hth
    split at h
    next v rv =>
      split at h
      · simp only [Prod.mk.injEq] at h
        exact ⟨h.2.1.symm, hint⟩
      · simp at h
    · split at h
      · split at h
        · simp only [Prod.mk.injEq] at h
          exact ⟨h.2.1.symm, hint⟩
        next hh =>
          split at h
          · simp only [Prod.mk.injEq] at h
            exact ⟨h.2.1.symm, hint⟩
          · simp at h
      · simp at h

theorem pollStep_not_sent {V : Type} (hashF : V → ℤ) (lastT : ℚ)
    (lastH : Option ℤ) (tick : PollTick V) (t2 : ℚ) (h2 : Option ℤ)
    (h : pollStep hashF lastT lastH tick = (false, t2, h2)) :
    t2 = lastT ∧ h2 = lastH := by
  obtain ⟨tnow, tcached, tavail⟩ := tick
  simp only [pollStep] at h
  split at h
  · simp only [Prod.mk.injEq] at h
    exact ⟨h.2.1.symm, h.2.2.symm⟩
  next hth =>
    split at h
    next v rv =>
      split at h
      · simp at h
      · simp only [Prod.mk.injEq] at h
        exact ⟨h.2.1.symm, h.2.2.symm⟩
    · split at h
      · split at h
        · simp at h
        next hh =>
          split at h
          · simp at h
          · simp only [Prod.mk.injEq] at h
            exact ⟨h.2.1.symm, h.2.2.symm⟩
      · simp only [Prod.mk.injEq] at h
        exact ⟨h.2.1.symm, h.2.2.symm⟩

theorem runPoll_sepFrom {V : Type} (hashF : V → ℤ)
    (ticks : List (PollTick V)) :
    ∀ (lastT : ℚ) (lastH : Option ℤ),
      sepFrom minSendInterval lastT (runPoll hashF lastT lastH ticks).2 := by
  induction ticks with
  | nil => intro lastT lastH; trivial
  | cons tick rest ih =>
    intro lastT lastH
    simp only [runPoll]
    rcases hstep : pollStep hashF lastT lastH tick with ⟨sent, t2, h2⟩
    rcases sent with _ | _
    · obtain ⟨ht, hh⟩ := pollStep_not_sent hashF lastT lastH tick t2 h2 hstep
      rw [ht, hh]
      simpa using ih lastT lastH
    · obtain ⟨ht, hint⟩ := pollStep_sent hashF lastT lastH tick t2 h2 hstep
      rw [ht]
      have hred : (if true = true then [tick.now] else []) ++
          (runPoll hashF tick.now h2 rest).2 =
          tick.now :: (runPoll hashF tick.now h2 rest).2 := by simp
      rw [hred]
      exact ⟨hint, ih tick.now h2⟩

theorem sepFrom_mem (d L : ℚ) (s : List ℚ) (hd : 0 ≤ d)
    (hs : sepFrom d L s) : ∀ x ∈ s, d ≤ x - L := by
  induction s generalizing L with
  | nil => intro x hx; simp at hx
  | cons t r ih =>
    obtain ⟨h1, h2⟩ := hs
    intro x hx
    rcases List.mem_cons.mp hx with rfl | hx
    · exact h1
    · have := ih t h2 x hx
      linarith

theorem sepFrom_pairwise (d L : ℚ) (s : List ℚ) (hd : 0 ≤ d)
    (hs : sepFrom d L s) : s.Pairwise (fun a b => d ≤ b - a) := by
  induction s generalizing L with
  | nil => exact List.Pairwise.nil
  | cons t r ih =>
    obtain ⟨h1, h2⟩ := hs
    exact List.Pairwise.cons (sepFrom_mem d t r hd h2) (ih t h2)

theorem sepFrom_count_lt (d : ℚ) (hd : 0 < d) (s : List ℚ) :
    ∀ (L b : ℚ) (n : ℕ), sepFrom d L s → b - L ≤ (n + 1 : ℕ) * d →
      (s.filter (fun x => decide (x < b))).length ≤ n := by
  induction s with
  | nil => intro L b n _ _; simp
  | cons t r ih =>
    intro L b n hs hb
    obtain ⟨h1, h2⟩ := hs
    by_cases ht : t < b
    · have hbL : d < b - L := by linarith
      have hn1 : 1 ≤ n := by
        by_contra hn
        push_neg at hn
        interval_cases n
        · push_cast at hb
          linarith
      obtain ⟨m, rfl⟩ : ∃ m, n = m + 1 := ⟨n - 1, (Nat.succ_pred_eq_of_pos hn1).symm⟩
      have hbt : b - t ≤ (m + 1 : ℕ) * d := by
        push_cast at hb ⊢
        linarith
      have := ih t b m h2 hbt
      simp only [List.filter_cons, decide_eq_true_eq, ht, if_pos, List.length_cons]
      omega
    · have hbt : b - t ≤ (n + 1 : ℕ) * d := by
        have h0 : (0 : ℚ) ≤ (n + 1 : ℕ) * d := by positivity
        linarith [le_of_not_lt ht]
      have := ih t b n h2 hbt
      simpa [List.filter_cons, ht] using this

theorem sepFrom_window (d : ℚ) (hd : 0 < d) (s : List ℚ) :
    ∀ (L a b : ℚ) (n : ℕ), sepFrom d L s → b - a ≤ (n + 1 : ℕ) * d →
      (s.filter (fun x => decide (a ≤ x ∧ x < b))).length ≤ n + 1 := by
  induction s with
  | nil => intro L a b n _ _; simp
  | cons t r ih =>
    intro L a b n hs hb
    obtain ⟨h1, h2⟩ := hs
    by_cases hw : a ≤ t ∧ t < b
    · have hsub : (r.filter (fun x => decide (a ≤ x ∧ x < b))).length ≤
          (r.filter (fun x => decide (x < b))).length := by
        apply List.Sublist.length_le
        apply List.monotone_filter_right
        intro x hx
        simp only [decide_eq_true_eq] at hx ⊢
        exact hx.2
      have hbt : b - t ≤ (n + 1 : ℕ) * d := by
        have : b - t ≤ b - a := by linarith [hw.1]
        linarith
      have hcount := sepFrom_count_lt d hd r t b n h2 hbt
      have hc : decide (a ≤ t ∧ t < b) = true := by simpa using hw
      rw [List.filter_cons, if_pos hc, List.length_cons]
      omega
    · have := ih t a b n h2 hb
      simpa [List.filter_cons, hw] using this

/-! ### Log-poll lemmas -/

theorem stepLogPoll_le (c0 : ℕ) (f : List ℕ) (hc : c0 ≤ f.length) :
    stepLogPoll c0 f true = (f.length, f.drop c0) := by
  unfold stepLogPoll agent_get_service_logs
  have hng : ¬ c0 > f.length := not_lt.mpr hc
  simp only [hng, if_false]
  by_cases hz : f.drop c0 = []
  · simp [hz]
  · simp [hz]

theorem chain_take_getLastD (fs : List (List ℕ)) :
    ∀ f : List ℕ, List.Chain (fun a b => b.take a.length = a) f fs →
      (fs.getLastD f).take f.length = f := by
  induction fs with
  | nil => intro f _; simp
  | cons g gs ih =>
    intro f hch
    rw [List.chain_cons] at hch
    obtain ⟨h1, h2⟩ := hch
    have hlen : f.length ≤ g.length := by
      have := congrArg List.length h1
      rw [List.length_take] at this
      omega
    have hg := ih g h2
    rw [List.getLastD_cons]
    calc (gs.getLastD g).take f.length
        = ((gs.getLastD g).take g.length).take f.length := by
          rw [List.take_take, min_eq_left hlen]
      _ = g.take f.length := by rw [hg]
      _ = f := h1

theorem runLogPoll_chain (evs : List (List ℕ × Bool)) :
    ∀ (c0 : ℕ) (f0 : List ℕ), evs ≠ [] → c0 ≤ f0.length →
      (∀ e ∈ evs, e.2 = true) →
      List.Chain (fun a b => b.take a.length = a) f0 (evs.map Prod.fst) →
      runLogPoll c0 evs =
        ((lastFile f0 evs).length, (lastFile f0 evs).drop c0) := by
  induction evs with
  | nil => intro c0 f0 hne _ _ _; exact absurd rfl hne
  | cons ev rest ih =>
    intro c0 f0 _ hc hup hch
    obtain ⟨f, u⟩ := ev
    have hu : u = true := hup (f, u) (List.mem_cons_self _ _)
    subst hu
    simp only [List.map_cons, List.chain_cons] at hch
    obtain ⟨h1, h2⟩ := hch
    have hlen : f0.length ≤ f.length := by
      have := congrArg List.length h1
      rw [List.length_take] at this
      omega
    have hcf : c0 ≤ f.length := le_trans hc hlen
    have hstep := stepLogPoll_le c0 f hcf
    have hlast : lastFile f0 ((f, true) :: rest) = lastFile f rest := by
      simp only [lastFile, List.map_cons, List.getLastD_cons]
    rcases hrest : rest with _ | ⟨ev2, rest2⟩
    · simp only [runLogPoll, hstep, hlast, lastFile, List.map_nil,
        List.getLastD]
      simp
    · rw [← hrest]
      have hne2 : rest ≠ [] := by rw [hrest]; simp
      have hup2 : ∀ e ∈ rest, e.2 = true := fun e he =>
        hup e (List.mem_cons_of_mem _ he)
      have hih := ih f.length f hne2 le_rfl hup2 h2
      simp only [runLogPoll, hstep, hih, hlast]
      have hpre : (lastFile f rest).take f.length = f :=
        chain_take_getLastD (rest.map Prod.fst) f h2
      have hsplit : lastFile f rest = f ++ (lastFile f rest).drop f.length := by
        conv_lhs => rw [← List.take_append_drop f.length (lastFile f rest)]
        rw [hpre]
      simp only [Prod.mk.injEq, true_and]
      conv_rhs => rw [hsplit]
      rw [List.drop_append_eq_append_drop]
      have hcz : c0 - f.length = 0 := by omega
      rw [hcz, List.drop_zero]

theorem stepLogPoll_le_all (c0 : ℕ) (f : List ℕ) (u : Bool)
    (hc : c0 ≤ f.length) :
    stepLogPoll c0 f u = (f.length, if u = true then f.drop c0 else []) := by
  simp only [stepLogPoll, agent_get_service_logs]
  rw [if_neg (not_lt.mpr hc)]
  rcases u with _ | _
  · simp
  · by_cases hz : f.drop c0 = []
    · simp [hz]
    · simp [hz]

theorem slicesAscending_mono (s : List (ℕ × ℕ)) :
    ∀ c c' : ℕ, c' ≤ c → slicesAscending c s → slicesAscending c' s := by
  induction s with
  | nil => intro c c' _ _; trivial
  | cons ab rest _ =>
    intro c c' hle h
    obtain ⟨h1, h2, h3⟩ := h
    exact ⟨le_trans hle h1, h2, h3⟩

theorem runLogPoll_slices (evs : List (List ℕ × Bool)) :
    ∀ (c0 : ℕ) (f0 : List ℕ), c0 ≤ f0.length →
      List.Chain (fun a b => b.take a.length = a) f0 (evs.map Prod.fst) →
      (runLogPoll c0 evs).2 =
        slicesBytes (lastFile f0 evs) (sentSlices c0 evs) ∧
      slicesAscending c0 (sentSlices c0 evs) := by
  induction evs with
  | nil => intro c0 f0 _ _; exact ⟨rfl, trivial⟩
  | cons ev rest ih =>
    intro c0 f0 hc hch
    obtain ⟨f, u⟩ := ev
    simp only [List.map_cons, List.chain_cons] at hch
    obtain ⟨h1, h2⟩ := hch
    have hlen : f0.length ≤ f.length := by
      have := congrArg List.length h1
      rw [List.length_take] at this
      omega
    have hcf : c0 ≤ f.length := le_trans hc hlen
    have hlast : lastFile f0 ((f, u) :: rest) = lastFile f rest := by
      simp only [lastFile, List.map_cons, List.getLastD_cons]
    obtain ⟨ihb, iha⟩ := ih f.length f le_rfl h2
    have hpre : (lastFile f rest).take f.length = f :=
      chain_take_getLastD (rest.map Prod.fst) f h2
    have hsent : stepLogPoll c0 f u =
        (f.length, if u = true then f.drop c0 else []) :=
      stepLogPoll_le_all c0 f u hcf
    rcases hrr : runLogPoll f.length rest with ⟨cf, later⟩
    rw [hrr] at ihb
    simp only at ihb
    rcases u with _ | _
    · have hstep2 : stepLogPoll c0 f false = (f.length, []) := by
        rw [hsent]; simp
      refine ⟨?_, ?_⟩
      · simp only [runLogPoll, hstep2, hrr, hlast, sentSlices]
        simpa using ihb
      · simp only [sentSlices, hstep2]
        simpa using slicesAscending_mono _ _ _ hcf iha
    · have hstep2 : stepLogPoll c0 f true = (f.length, f.drop c0) := by
        rw [hsent]; simp
      by_cases hz : f.drop c0 = []
      · refine ⟨?_, ?_⟩
        · simp only [runLogPoll, hstep2, hrr, hlast, sentSlices, hz]
          simpa [hz] using ihb
        · simp only [sentSlices, hstep2, hz]
          simpa using slicesAscending_mono _ _ _ hcf iha
      · refine ⟨?_, ?_⟩
        · simp only [runLogPoll, hstep2, hrr, hlast, sentSlices, if_neg hz]
          simp only [slicesBytes, hpre, List.singleton_append]
          simpa using ihb
        · simp only [sentSlices, hstep2, if_neg hz, List.singleton_append]
          exact ⟨le_refl c0, hcf, iha⟩

/-! ### Claim theorems -/

/-- C1: for a dynamic feed with a cache entry carrying a timestamp and a
raw value, a `get` at age `now - receivedAt > 3` seconds deletes the
entry from the cache and returns `None`; a `get` at age at most `3`
seconds returns the cached value and leaves the state unchanged — the
read itself performs the eviction. -/
theorem C1_dynamic_stale_get (V : Type) (p : ROS2TopicSubscriber V)
    (topic : String) (now r : ℚ) (v : V) (e : CacheEntry V)
    (hdyn : (alookup p.topics topic).isSome = true)
    (hc : alookup p.msg_cache topic = some e)
    (hr : e.receivedAt = some r) (hm : e.rawMessage = some v) :
    (now - r > 3 →
      (get_topic_data p topic now).1 = none ∧
      alookup (get_topic_data p topic now).2.msg_cache topic = none) ∧
    (now - r ≤ 3 →
      get_topic_data p topic now = (some (v, some r), p)) := by
  constructor
  · intro hgt
    have hred : get_topic_data p topic now =
        (none, { p with msg_cache := cacheErase p.msg_cache topic }) := by
      unfold get_topic_data
      rw [hc]
      simp only [hdyn, hr, Bool.true_and]
      rw [if_pos (by simpa [DYNAMIC_TOPIC_STALE_TIME] using hgt)]
    rw [hred]
    exact ⟨rfl, alookup_cacheErase_self p.msg_cache topic⟩
  · intro hle
    unfold get_topic_data
    rw [hc]
    simp only [hdyn, hr, Bool.true_and]
    rw [if_neg (by simpa [DYNAMIC_TOPIC_STALE_TIME] using not_lt.mpr hle)]
    simp [hm, hr]

theorem C1_dynamic_stale_get_witness :
    ((get_topic_data pDynFix ("/a") 4).1 = none ∧
     alookup (get_topic_data pDynFix ("/a") 4).2.msg_cache ("/a") = none) ∧
    get_topic_data pDynFix ("/a") 1 = (some (7, some 0), pDynFix) := by
  constructor
  · exact (C1_dynamic_stale_get ℕ pDynFix ("/a") 4 0 7 ⟨some 7, some 0⟩
      rfl rfl rfl rfl).1 (by norm_num)
  · exact (C1_dynamic_stale_get ℕ pDynFix ("/a") 1 0 7 ⟨some 7, some 0⟩
      rfl rfl rfl rfl).2 (by norm_num)

/-- C2: with at least one topic configured and a fresh (stopped, empty)
plugin, `start` attempts every feed independently and raises an error
exactly when no subscription was created; on success the subscribed set
is exactly the configured feeds whose creation succeeded, in
dynamic-then-static order. -/
theorem C2_start_partial_failure (V : Type) (p : ROS2TopicSubscriber V)
    (create : String → Bool)
    (hrun : p.is_running = false) (hsub : p.subscribers = [])
    (htot : 0 < p.topics.length + p.static_topics.length) :
    (start p create = .error () ↔
      ∀ t ∈ dynKeys p ++ staticKeys p, create t = false) ∧
    (∀ q, start p create = .ok q →
      q.subscribers =
        (dynKeys p).filter create ++ (staticKeys p).filter create ∧
      q.is_running = true) := by
  have hchar :
      ((dynKeys p).filter create ++ (staticKeys p).filter create = []) ↔
        (∀ t ∈ dynKeys p ++ staticKeys p, create t = false) := by
    simp only [List.append_eq_nil, List.filter_eq_nil_iff, List.mem_append,
      Bool.not_eq_true]
    constructor
    · rintro ⟨h1, h2⟩ t (ht | ht)
      · exact h1 t ht
      · exact h2 t ht
    · intro h
      exact ⟨fun t ht => h t (Or.inl ht), fun t ht => h t (Or.inr ht)⟩
  unfold start
  rw [hrun]
  rw [if_neg Bool.false_ne_true]
  rw [hsub]
  simp only [List.nil_append]
  constructor
  · by_cases hcond :
        (dynKeys p).filter create ++ (staticKeys p).filter create = []
    · rw [if_pos ⟨hcond, htot⟩]
      exact iff_of_true rfl (hchar.mp hcond)
    · rw [if_neg (fun hcontra => hcond hcontra.1)]
      exact iff_of_false (by simp) (fun hall => hcond (hchar.mpr hall))
  · intro q hq
    by_cases hcond :
        ((dynKeys p).filter create ++ (staticKeys p).filter create = []) ∧
          p.topics.length + p.static_topics.length > 0
    · rw [if_pos hcond] at hq
      cases hq
    · rw [if_neg hcond] at hq
      injection hq with hq
      rw [← hq]
      exact ⟨rfl, rfl⟩

theorem C2_start_partial_failure_witness :
    (start pStartFix createNotY = .error () ↔
      ∀ t ∈ dynKeys pStartFix ++ staticKeys pStartFix,
        createNotY t = false) ∧
    (∀ q, start pStartFix createNotY = .ok q →
      q.subscribers = (dynKeys pStartFix).filter createNotY ++
        (staticKeys pStartFix).filter createNotY ∧
      q.is_running = true) :=
  C2_start_partial_failure ℕ pStartFix createNotY rfl rfl (by decide)

/-- C3: in the topic-poll loop, a tick with `now - lastSendTime` below
`1/maxRate` (with `maxRate = 10` per second) sends nothing and leaves
the session state unchanged; every sent message sets `lastSendTime` to
the tick time; consequently over any trace the send times are pairwise
at least `minSendInterval = 1/10` seconds apart, and any half-open
1-second window contains at most 10 sends. -/
theorem C3_poll_throttle_rate :
    minSendInterval = 1 / 10 ∧
    (∀ (V : Type) (hashF : V → ℤ) (lastT : ℚ) (lastH : Option ℤ)
        (tick : PollTick V), tick.now - lastT < minSendInterval →
        pollStep hashF lastT lastH tick = (false, lastT, lastH)) ∧
    (∀ (V : Type) (hashF : V → ℤ) (lastT : ℚ) (lastH : Option ℤ)
        (tick : PollTick V) (t2 : ℚ) (h2 : Option ℤ),
        pollStep hashF lastT lastH tick = (true, t2, h2) → t2 = tick.now) ∧
    (∀ (V : Type) (hashF : V → ℤ) (lastT : ℚ) (lastH : Option ℤ)
        (ticks : List (PollTick V)),
        ((runPoll hashF lastT lastH ticks).2).Pairwise
          (fun a b => minSendInterval ≤ b - a)) ∧
    (∀ (V : Type) (hashF : V → ℤ) (lastT : ℚ) (lastH : Option ℤ)
        (ticks : List (PollTick V)) (a : ℚ),
        (((runPoll hashF lastT lastH ticks).2).filter
          (fun t => decide (a ≤ t ∧ t < a + 1))).length ≤ 10) := by
  have hmi : minSendInterval = 1 / 10 := by
    norm_num [minSendInterval, ROS2_TOPIC_MAX_SEND_RATE]
  have hpos : (0 : ℚ) < minSendInterval := by rw [hmi]; norm_num
  refine ⟨hmi, ?_, ?_, ?_, ?_⟩
  · exact fun _ hashF lastT lastH tick h =>
      pollStep_throttled hashF lastT lastH tick h
  · exact fun _ hashF lastT lastH tick t2 h2 h =>
      (pollStep_sent hashF lastT lastH tick t2 h2 h).1
  · intro _ hashF lastT lastH ticks
    exact sepFrom_pairwise _ _ _ (le_of_lt hpos)
      (runPoll_sepFrom hashF ticks lastT lastH)
  · intro _ hashF lastT lastH ticks a
    have h := sepFrom_window minSendInterval hpos
      ((runPoll hashF lastT lastH ticks).2) lastT a (a + 1) 9
      (runPoll_sepFrom hashF ticks lastT lastH)
      (by rw [hmi]; push_cast; norm_num)
    simpa using h

/-- C6: on a non-throttled tick observing an unavailable feed (no cached
value, `available = false`), the poll step sends exactly one unavailable
notice and sets the `-1` sentinel when the tracked hash state is not
already the sentinel, and sends nothing when it already is. -/
theorem C6_unavailable_notice_once (V : Type) (hashF : V → ℤ)
    (lastT now : ℚ) (lastH : Option ℤ)
    (hth : minSendInterval ≤ now - lastT) :
    pollStep hashF lastT lastH ⟨now, none, false⟩ =
      if lastH = some (-1) then (false, lastT, lastH)
      else (true, now, some (-1)) := by
  have hnl : ¬ (now - lastT < minSendInterval) := not_lt.mpr hth
  rcases lastH with _ | hh
  · simp [pollStep, hnl]
  · by_cases hne : hh = -1
    · subst hne
      simp [pollStep, hnl]
    · simp [pollStep, hnl, hne]

theorem C6_unavailable_notice_once_witness :
    pollStep (V := ℕ) Int.ofNat 0 none ⟨1, none, false⟩ =
      (true, 1, some (-1)) ∧
    pollStep (V := ℕ) Int.ofNat 0 (some (-1)) ⟨1, none, false⟩ =
      (false, 0, some (-1)) := by
  have hth : minSendInterval ≤ (1 : ℚ) - 0 := by
    norm_num [minSendInterval, ROS2_TOPIC_MAX_SEND_RATE]
  constructor
  · simpa using C6_unavailable_notice_once ℕ Int.ofNat 0 1 none hth
  · simpa using C6_unavailable_notice_once ℕ Int.ofNat 0 1 (some (-1)) hth

/-- C8: when the log resource has shrunk below the session's cursor, the
agent clamps the cursor to the new size, returns no content and a reset
cursor equal to the new (smaller) size, and the poll step adopts that
cursor and sends nothing — no old content is replayed. -/
theorem C8_truncation_resets_cursor (file : List ℕ) (c : ℕ)
    (h : file.length < c) :
    agent_get_service_logs file c = ([], file.length) ∧
    ∀ up : Bool, stepLogPoll c file up = (file.length, []) := by
  have hgt : c > file.length := h
  constructor
  · simp only [agent_get_service_logs]
    rw [if_pos hgt]
    simp [List.drop_length]
  · intro up
    simp only [stepLogPoll, agent_get_service_logs]
    rw [if_pos hgt]
    simp [List.drop_length]

theorem C8_truncation_resets_cursor_witness :
    agent_get_service_logs (List.replicate 100 0) 500 =
      ([], (List.replicate 100 0).length) ∧
    ∀ up : Bool, stepLogPoll 500 (List.replicate 100 0) up =
      ((List.replicate 100 0).length, []) :=
  C8_truncation_resets_cursor (List.replicate 100 0) 500 (by simp)

/-- C4 counterexample: a legitimate append-only trace (initial file
empty, cursor 0, each fetched file extends the previous one) on which
the poll loop drops a byte: the fetch at the tick where both the service
and its log service are reported down advances the cursor past byte `7`
without sending it, so the concatenation of all sent bytes is not the
suffix of the final file past the initial cursor. -/
theorem C4_counterexample :
    ((0 : ℕ) ≤ ([] : List ℕ).length ∧
      List.Chain (fun a b => b.take a.length = a) ([] : List ℕ)
        (evsLogFix.map Prod.fst)) ∧
    (runLogPoll 0 evsLogFix).2 ≠ (lastFile ([] : List ℕ) evsLogFix).drop 0 := by
  refine ⟨⟨Nat.zero_le _, ?_⟩, by decide⟩
  simp only [evsLogFix, List.map_cons, List.map_nil]
  exact List.Chain.cons (by decide) (List.Chain.cons (by decide) List.Chain.nil)

/-- C4 amended: over every append-only trace the poll loop never
re-delivers a byte: each sent chunk is the slice of the final file over
its recorded byte range, and those ranges strictly advance (each starts
at or past the end of the previous one), so no byte position is sent
twice — this holds for arbitrary service-status observations, including
polls where both services are reported down.  When additionally every
poll observes the service or its log service up, no byte is dropped
either: the loop delivers exactly the bytes of the final file past the
initial cursor, in order, and the final cursor is the final file size.
(As stated the claim fails: on a poll where both services are reported
down the loop advances the cursor without sending the fetched bytes,
dropping them.) -/
theorem C4_amended_no_loss_no_redelivery (c0 : ℕ) (f0 : List ℕ)
    (evs : List (List ℕ × Bool))
    (hc : c0 ≤ f0.length)
    (hch : List.Chain (fun a b => b.take a.length = a) f0 (evs.map Prod.fst)) :
    ((runLogPoll c0 evs).2 =
       slicesBytes (lastFile f0 evs) (sentSlices c0 evs) ∧
     slicesAscending c0 (sentSlices c0 evs)) ∧
    (evs ≠ [] → (∀ e ∈ evs, e.2 = true) →
      runLogPoll c0 evs =
        ((lastFile f0 evs).length, (lastFile f0 evs).drop c0)) :=
  ⟨runLogPoll_slices evs c0 f0 hc hch,
   fun hne hup => runLogPoll_chain evs c0 f0 hne hc hup hch⟩

theorem C4_amended_no_loss_no_redelivery_witness :
    (((runLogPoll 1 [([1, 2], true), ([1, 2, 3], false), ([1, 2, 3, 4], true)]).2 =
        slicesBytes
          (lastFile [1] [([1, 2], true), ([1, 2, 3], false), ([1, 2, 3, 4], true)])
          (sentSlices 1 [([1, 2], true), ([1, 2, 3], false), ([1, 2, 3, 4], true)]) ∧
      slicesAscending 1
        (sentSlices 1 [([1, 2], true), ([1, 2, 3], false), ([1, 2, 3, 4], true)])) ∧
     ([([1, 2], true), ([1, 2, 3], false), ([1, 2, 3, 4], true)] ≠
        ([] : List (List ℕ × Bool)) →
      (∀ e ∈ [([1, 2], true), ([1, 2, 3], false), ([1, 2, 3, 4], true)],
        e.2 = true) →
      runLogPoll 1 [([1, 2], true), ([1, 2, 3], false), ([1, 2, 3, 4], true)] =
        ((lastFile [1]
            [([1, 2], true), ([1, 2, 3], false), ([1, 2, 3, 4], true)]).length,
         (lastFile [1]
            [([1, 2], true), ([1, 2, 3], false), ([1, 2, 3, 4], true)]).drop 1))) :=
  C4_amended_no_loss_no_redelivery 1 [1]
    [([1, 2], true), ([1, 2, 3], false), ([1, 2, 3, 4], true)]
    (by simp)
    (List.Chain.cons (by decide)
      (List.Chain.cons (by decide)
        (List.Chain.cons (by decide) List.Chain.nil)))

theorem get_topic_data_topics {V : Type} (p : ROS2TopicSubscriber V)
    (topic : String) (now : ℚ) :
    (get_topic_data p topic now).2.topics = p.topics := by
  unfold get_topic_data
  rcases alookup p.msg_cache topic with _ | e
  · rfl
  · dsimp only
    split
    · rfl
    · rcases e.rawMessage with _ | m <;> rfl

/-- C7: a static feed (configured static, not dynamic) with a cached
value is returned by `get` unchanged at any time, reported available,
and its cache entry survives the status pass and the janitor sweep —
no operation evicts it by age. -/
theorem C7_static_no_age_eviction (V : Type) (p : ROS2TopicSubscriber V)
    (topic : String) (v : V) (e : CacheEntry V)
    (hst : topic ∈ staticKeys p) (hd : topic ∉ dynKeys p)
    (hc : alookup p.msg_cache topic = some e) (hm : e.rawMessage = some v) :
    ∀ now : ℚ,
      get_topic_data p topic now = (some (v, e.receivedAt), p) ∧
      is_topic_available p topic now = (true, p) ∧
      alookup (get_all_topics_status p now).2.msg_cache topic = some e ∧
      alookup (janitorSweep p now).msg_cache topic = some e := by
  intro now
  have hdynNone : alookup p.topics topic = none :=
    alookup_eq_none_of_not_mem _ _ hd
  refine ⟨?_, ?_, ?_, ?_⟩
  · unfold get_topic_data
    rw [hc]
    simp [hdynNone, hm]
  · unfold is_topic_available
    rw [if_neg (not_not_intro (Or.inr hst))]
    rw [hc]
    simp [hdynNone]
  · rcases hfold : statusDynFold p.subscribers now p.topics
        ([] : List (String × StatusRecord)) p.msg_cache with ⟨acc1, cache1⟩
    have hga : get_all_topics_status p now =
        (statusStaticFold p.subscribers now cache1 p.static_topics acc1,
          { p with msg_cache := cache1 }) := by
      unfold get_all_topics_status
      rw [hfold]
    rw [hga]
    have := statusDynFold_cache_ne p.subscribers now p.topics
      ([] : List (String × StatusRecord)) p.msg_cache topic hd
    rw [hfold] at this
    simpa [this] using hc
  · unfold janitorSweep
    rw [alookup_janitorFilter_keep p.topics now p.msg_cache topic
      (fun x => by simp [janitorEvicts, hdynNone])]
    exact hc

theorem C7_static_no_age_eviction_witness :
    get_topic_data pStaticFix ("/b") 100 = (some (9, some 0), pStaticFix) ∧
    is_topic_available pStaticFix ("/b") 100 = (true, pStaticFix) ∧
    alookup (get_all_topics_status pStaticFix 100).2.msg_cache ("/b") =
      some ⟨some 9, some 0⟩ ∧
    alookup (janitorSweep pStaticFix 100).msg_cache ("/b") =
      some ⟨some 9, some 0⟩ :=
  C7_static_no_age_eviction ℕ pStaticFix ("/b") 9 ⟨some 9, some 0⟩
    (by decide) (by decide) rfl rfl 100

/-- C9: a value received for a topic configured neither dynamic nor
static is stored unconditionally by the subscription callback and is
addressable — `get` returns it at any later time — but it is never
listed: it appears neither in the status map nor in the
configured-topics list. -/
theorem C9_unconfigured_stored_not_listed (V : Type)
    (p : ROS2TopicSubscriber V) (topic : String) (m : V) (now : ℚ)
    (hd : topic ∉ dynKeys p) (hs : topic ∉ staticKeys p) :
    alookup (msg_callback p topic m now).msg_cache topic =
      some ⟨some m, some now⟩ ∧
    (∀ now2 : ℚ,
      (get_topic_data (msg_callback p topic m now) topic now2).1 =
        some (m, some now)) ∧
    (∀ now2 : ℚ,
      alookup (get_all_topics_status (msg_callback p topic m now) now2).1
        topic = none) ∧
    topic ∉ list_topics (msg_callback p topic m now) := by
  set q := msg_callback p topic m now with hq
  have hqc : alookup q.msg_cache topic = some ⟨some m, some now⟩ := by
    rw [hq]
    exact alookup_upsert_self p.msg_cache topic ⟨some m, some now⟩
  have hqt : q.topics = p.topics := rfl
  have hqs : q.static_topics = p.static_topics := rfl
  have hdynNone : alookup q.topics topic = none := by
    rw [hqt]
    exact alookup_eq_none_of_not_mem _ _ hd
  refine ⟨hqc, ?_, ?_, ?_⟩
  · intro now2
    unfold get_topic_data
    rw [hqc]
    simp [hdynNone]
  · intro now2
    rcases hfold : statusDynFold q.subscribers now2 q.topics
        ([] : List (String × StatusRecord)) q.msg_cache with ⟨acc1, cache1⟩
    have hga : get_all_topics_status q now2 =
        (statusStaticFold q.subscribers now2 cache1 q.static_topics acc1,
          { q with msg_cache := cache1 }) := by
      unfold get_all_topics_status
      rw [hfold]
    rw [hga]
    have hstatic : alookup (statusStaticFold q.subscribers now2 cache1
        q.static_topics acc1) topic = alookup acc1 topic := by
      apply statusStaticFold_acc_ne
      rw [hqs]
      exact hs
    have hdynacc := statusDynFold_acc_ne q.subscribers now2 q.topics
      ([] : List (String × StatusRecord)) q.msg_cache topic
      (by rw [hqt]; exact hd)
    rw [hfold] at hdynacc
    simp only
    rw [hstatic, hdynacc]
    rfl
  · simp only [list_topics, List.mem_append, not_or]
    exact ⟨fun h => hd (by simpa [dynKeys, hqt] using h),
           fun h => hs (by simpa [staticKeys, hqs] using h)⟩

theorem C9_unconfigured_stored_not_listed_witness :
    alookup (msg_callback pConfFix ("/x") 5 2).msg_cache ("/x") =
      some ⟨some 5, some 2⟩ ∧
    (∀ now2 : ℚ,
      (get_topic_data (msg_callback pConfFix ("/x") 5 2) ("/x") now2).1 =
        some (5, some 2)) ∧
    (∀ now2 : ℚ,
      alookup (get_all_topics_status (msg_callback pConfFix ("/x") 5 2)
        now2).1 ("/x") = none) ∧
    ("/x") ∉ list_topics (msg_callback pConfFix ("/x") 5 2) :=
  C9_unconfigured_stored_not_listed ℕ pConfFix ("/x") 5 2
    (by decide) (by decide)

/-- C10: the HTTP topic-data endpoint validates the topic against
`list_topics` (which includes static topics) but builds the response by
indexing the dynamic map only, so for every configured static topic
(not also dynamic) the lookup raises `KeyError`; for every dynamic topic
the response path never raises `KeyError`. -/
theorem C10_static_route_keyerror (V : Type) (p : ROS2TopicSubscriber V)
    (topic : String) (now : ℚ)
    (hs : topic ∈ staticKeys p) (hd : topic ∉ dynKeys p) :
    get_ros2_topic_data_route p topic now = RouteResult.keyError ∧
    ∀ t ∈ dynKeys p,
      get_ros2_topic_data_route p t now ≠ RouteResult.keyError := by
  constructor
  · unfold get_ros2_topic_data_route
    rw [if_pos (show topic ∈ list_topics p from
      List.mem_append.mpr (Or.inr hs))]
    rcases hgd : get_topic_data p topic now with ⟨cached, p1⟩
    have htop : p1.topics = p.topics := by
      have := get_topic_data_topics p topic now
      rw [hgd] at this
      exact this
    have hnone : alookup p1.topics topic = none := by
      rw [htop]
      exact alookup_eq_none_of_not_mem _ _ hd
    simp [hgd, hnone]
  · intro t ht
    unfold get_ros2_topic_data_route
    rw [if_pos (show t ∈ list_topics p from List.mem_append.mpr (Or.inl ht))]
    rcases hgd : get_topic_data p t now with ⟨cached, p1⟩
    have htop : p1.topics = p.topics := by
      have := get_topic_data_topics p t now
      rw [hgd] at this
      exact this
    have hsome : (alookup p1.topics t).isSome = true := by
      rw [htop]
      exact alookup_isSome_of_mem _ _ ht
    rcases hmt : alookup p1.topics t with _ | mt
    · rw [hmt] at hsome
      simp at hsome
    · rcases hav : is_topic_available p1 t now with ⟨avail, p2⟩
      simp [hgd, hmt, hav]

theorem C10_static_route_keyerror_witness :
    get_ros2_topic_data_route pStaticFix ("/b") 1 = RouteResult.keyError ∧
    ∀ t ∈ dynKeys pStaticFix,
      get_ros2_topic_data_route pStaticFix t 1 ≠ RouteResult.keyError :=
  C10_static_route_keyerror ℕ pStaticFix ("/b") 1 (by decide) (by decide)

/-- C5 counterexample: the status pass does not apply the same staleness
rule as `get` for an entry whose `receivedAt` is not positive. With the
dynamic feed `/a` cached at `receivedAt = 0` and `now = 4` (age 4 > 3),
`get` evicts the entry and returns `None`, while the status pass leaves
the entry in the cache and reports `available = true`. -/
theorem C5_counterexample :
    ((get_topic_data pDynFix ("/a") 4).1 = none ∧
     alookup (get_topic_data pDynFix ("/a") 4).2.msg_cache ("/a") = none) ∧
    (alookup (get_all_topics_status pDynFix 4).2.msg_cache ("/a") =
       some ⟨some 7, some 0⟩ ∧
     (alookup (get_all_topics_status pDynFix 4).1 ("/a")).map
       StatusRecord.available = some true) := by
  refine ⟨⟨?_, ?_⟩, ?_, ?_⟩ <;>
    norm_num [get_topic_data, get_all_topics_status, statusDynFold,
      statusDynOne, statusStaticFold, upsert, alookup, pDynFix, cacheErase,
      DYNAMIC_TOPIC_STALE_TIME]

/-- C5 amended: for a dynamic feed whose cache entry has a present,
positive `receivedAt` and a present raw message, one pass of status
evicts the entry exactly when a `get` at the same instant would evict
it, and reports `available = true` exactly when that `get` would return
a value.  (For entries whose `receivedAt` is missing or not positive the
equivalence fails: status never evicts them and reports them available,
while `get` applies the age rule whenever `receivedAt` is present.) -/
theorem C5_amended_status_matches_get (V : Type) (p : ROS2TopicSubscriber V)
    (topic mt : String) (now r : ℚ) (v : V) (e : CacheEntry V)
    (hnd : (dynKeys p).Nodup)
    (hdyn : alookup p.topics topic = some mt)
    (hst : topic ∉ staticKeys p)
    (hc : alookup p.msg_cache topic = some e)
    (hr : e.receivedAt = some r) (hrpos : 0 < r)
    (hm : e.rawMessage = some v) :
    (alookup (get_all_topics_status p now).2.msg_cache topic = none ↔
       alookup (get_topic_data p topic now).2.msg_cache topic = none) ∧
    ((alookup (get_all_topics_status p now).1 topic).map
       StatusRecord.available =
       some ((get_topic_data p topic now).1).isSome) := by
  have hdynSome : (alookup p.topics topic).isSome = true := by
    rw [hdyn]; rfl
  rcases hfold : statusDynFold p.subscribers now p.topics
      ([] : List (String × StatusRecord)) p.msg_cache with ⟨acc1, cache1⟩
  have hga : get_all_topics_status p now =
      (statusStaticFold p.subscribers now cache1 p.static_topics acc1,
        { p with msg_cache := cache1 }) := by
    unfold get_all_topics_status
    rw [hfold]
  have hmain := statusDynFold_main p.subscribers now p.topics
    ([] : List (String × StatusRecord)) p.msg_cache topic mt hnd hdyn
  rw [hfold] at hmain
  obtain ⟨hacc, hcache⟩ := hmain
  simp only at hacc hcache
  have hstatic : alookup (statusStaticFold p.subscribers now cache1
      p.static_topics acc1) topic = alookup acc1 topic :=
    statusStaticFold_acc_ne p.subscribers now cache1 p.static_topics acc1
      topic hst
  have hcself := statusDynOne_cache_self p.msg_cache p.subscribers topic mt
    now e r hc hr
  have hfst := statusDynOne_fst p.msg_cache p.subscribers topic mt now e r
    hc hr hrpos
  by_cases hgt : now - r > DYNAMIC_TOPIC_STALE_TIME
  · have hget : get_topic_data p topic now =
        (none, { p with msg_cache := cacheErase p.msg_cache topic }) := by
      unfold get_topic_data
      rw [hc]
      simp only [hdynSome, hr, Bool.true_and]
      rw [if_pos (by simpa using hgt)]
    rw [hga, hget]
    constructor
    · simp only
      rw [hcache, hcself, if_pos ⟨hrpos, hgt⟩, alookup_cacheErase_self]
    · simp only
      rw [hstatic, hacc, Option.map_some', hfst]
      have hnle : ¬ (now - r ≤ DYNAMIC_TOPIC_STALE_TIME) := not_le.mpr hgt
      simp [hnle]
  · push_neg at hgt
    have hget : get_topic_data p topic now = (some (v, some r), p) := by
      unfold get_topic_data
      rw [hc]
      simp only [hdynSome, hr, Bool.true_and]
      rw [if_neg (by simpa using not_lt.mpr hgt)]
      simp [hm, hr]
    rw [hga, hget]
    constructor
    · simp only
      rw [hcache, hcself,
        if_neg (by rintro ⟨h0, hgt2⟩; exact absurd hgt2 (not_lt.mpr hgt)), hc]
    · simp only
      rw [hstatic, hacc, Option.map_some', hfst]
      simp [hgt]

theorem C5_amended_status_matches_get_witness :
    (alookup (get_all_topics_status pDynPosFix 5).2.msg_cache ("/a") =
       none ↔
       alookup (get_topic_data pDynPosFix ("/a") 5).2.msg_cache ("/a") =
         none) ∧
    ((alookup (get_all_topics_status pDynPosFix 5).1 ("/a")).map
       StatusRecord.available =
       some ((get_topic_data pDynPosFix ("/a") 5).1).isSome) :=
  C5_amended_status_matches_get ℕ pDynPosFix ("/a") ("T") 5 1 7
    ⟨some 7, some 1⟩ (by decide) rfl (by decide) rfl rfl (by norm_num) rfl
